import Mathlib

/-!
Verification development for the recurrent-visual-attention repository
(`modules.py`).  The PyTorch modules are shallowly embedded: tensors become
shape metadata plus a total data function over ℚ (ℝ for the tanh-based
location network), and every operation that can raise at run time returns
`Option`, with `none` standing for the raised error.
-/

set_option maxRecDepth 10000

attribute [local semireducible] Rat.mul Rat.add Rat.sub Rat.inv Rat.ofScientific

namespace RAM

/-- Rank-2 tensor over ℚ: shape (batch, width) plus a total data function.
Entries at indices outside the shape are irrelevant to every modelled
operation. -/
structure Tensor2Q where
  batch : ℕ
  width : ℕ
  data : ℕ → ℕ → ℚ

/-- Rank-4 tensor over ℚ: shape (batch, chans, height, width). -/
structure Tensor4Q where
  batch : ℕ
  chans : ℕ
  height : ℕ
  width : ℕ
  data : ℕ → ℕ → ℕ → ℕ → ℚ

/-- Truncation toward zero: the semantics of Python `int()` and of torch
`.long()` applied to a real value. -/
def toLong (q : ℚ) : ℤ := if q < 0 then ⌈q⌉ else ⌊q⌋

/-- Python slice-endpoint normalisation for an axis of extent `n`: negative
endpoints count from the end of the axis, and endpoints are clamped to
`[0, n]`. -/
def pyIdx (n : ℕ) (i : ℤ) : ℕ := if i < 0 then ((n : ℤ) + i).toNat else min i.toNat n

/-- `nn.ConstantPad2d(p, v)`: pad the last two axes by `p` on every side with
the constant `v`. -/
def constantPad2d (p : ℕ) (v : ℚ) (x : Tensor4Q) : Tensor4Q :=
  ⟨x.batch, x.chans, x.height + 2 * p, x.width + 2 * p, fun b c i j =>
    if p ≤ i ∧ i < p + x.height ∧ p ≤ j ∧ j < p + x.width then
      x.data b c (i - p) (j - p)
    else v⟩

/-- Pixel coordinate of one normalised location component `v` for an axis of
size `n`: the elementwise `(0.5 * ((l + 1.0) * imgShape)).long()` of
`retina.extract_patch`. -/
def pixCoord (n : ℕ) (v : ℚ) : ℤ := toLong (1/2 * ((v + 1) * (n : ℚ)))

/-- Component `j` of location row `b`, with the width-1 broadcast of
`(l + 1) * imgShape` taken into account. -/
def locAt (l : Tensor2Q) (b j : ℕ) : ℚ := l.data b (if l.width = 1 then 0 else j)

/-- `retina.extract_patch(x, l, size)`.  The `imgShape` cache is modelled as
recomputed from the current image (the cache assumes a constant image size
across calls, which holds in every claim considered here).  The image is
padded by `size // 2` of zeros, pixel coordinates are taken with the
original axis assignment of the source (`from_x` from `coords[:, 0]`
scaled by the image height, used on the width axis; `from_y` from
`coords[:, 1]` scaled by the image width, used on the height axis), each
batch row is sliced with Python clamping semantics, and the rows are
re-concatenated along the batch axis.  `none` models the run-time errors:
an empty batch, a location tensor that cannot broadcast against
`imgShape`, a location batch smaller than the image batch, or per-row
slices of unequal sizes (which make `torch.cat` raise). -/
def extract_patch (x : Tensor4Q) (l : Tensor2Q) (size : ℕ) : Option Tensor4Q :=
  let fx : ℕ → ℤ := fun b => pixCoord x.height (locAt l b 0)
  let fy : ℕ → ℤ := fun b => pixCoord x.width (locAt l b 1)
  let xp := constantPad2d (size / 2) 0 x
  let hS : ℕ → ℕ := fun b => pyIdx xp.height (fy b)
  let hL : ℕ → ℕ := fun b => pyIdx xp.height (fy b + size) - hS b
  let wS : ℕ → ℕ := fun b => pyIdx xp.width (fx b)
  let wL : ℕ → ℕ := fun b => pyIdx xp.width (fx b + size) - wS b
  if x.batch = 0 then none
  else if ¬ (l.width = 2 ∨ l.width = 1) then none
  else if l.batch < x.batch then none
  else if ∀ b, b < x.batch → hL b = hL 0 ∧ wL b = wL 0 then
    some ⟨x.batch, x.chans, hL 0, wL 0, fun b c i j => xp.data b c (hS b + i) (wS b + j)⟩
  else none

/-- `F.avg_pool2d` with kernel = stride = `k` and no padding.  `none` models
the errors torch raises for a zero-sized kernel or a kernel larger than the
input. -/
def avg_pool2d (x : Tensor4Q) (k : ℕ) : Option Tensor4Q :=
  if k = 0 ∨ x.height < k ∨ x.width < k then none
  else
    some ⟨x.batch, x.chans, (x.height - k) / k + 1, (x.width - k) / k + 1,
      fun b c i j =>
        (∑ di ∈ Finset.range k, ∑ dj ∈ Finset.range k,
          x.data b c (i * k + di) (j * k + dj)) / ((k : ℚ) * k)⟩

/-- `torch.cat` of two rank-4 tensors along the channel axis; `none` on a
batch or spatial mismatch. -/
def catChannel2 (x y : Tensor4Q) : Option Tensor4Q :=
  if x.batch = y.batch ∧ x.height = y.height ∧ x.width = y.width then
    some ⟨x.batch, x.chans + y.chans, x.height, x.width, fun b c i j =>
      if c < x.chans then x.data b c i j else y.data b (c - x.chans) i j⟩
  else none

/-- `torch.cat(patches, 1)` on a list of rank-4 tensors; `none` on the empty
list (torch raises there) and on any shape mismatch. -/
def catChannel : List Tensor4Q → Option Tensor4Q
  | [] => none
  | [t] => some t
  | t :: u :: ts => do catChannel2 t (← catChannel (u :: ts))

/-- `patches.view(patches.shape[0], -1)`: flatten (chans, height, width) into
a single feature axis, preserving the batch axis. -/
def flattenT (x : Tensor4Q) : Tensor2Q :=
  ⟨x.batch, x.chans * x.height * x.width, fun b j =>
    x.data b (j / (x.height * x.width)) (j % (x.height * x.width) / x.width) (j % x.width)⟩

/-- Hyperparameters stored by `retina.__init__`. -/
structure Retina where
  patch_size : ℕ
  num_patches : ℕ
  scale : ℚ

/-- Side length requested for the `i`-th extraction of `retina.foveate`:
`size = patch_size` initially, then `size = int(scale * size)` after every
extraction. -/
def Retina.sizeAt (r : Retina) : ℕ → ℕ
  | 0 => r.patch_size
  | i + 1 => (toLong (r.scale * (r.sizeAt i : ℚ))).toNat

/-- The extraction loop of `retina.foveate`: extract `n` patches starting at
scale index `i`; all-or-nothing, as in the Python loop. -/
def extractFrom (r : Retina) (x : Tensor4Q) (l : Tensor2Q) : ℕ → ℕ → Option (List Tensor4Q)
  | _, 0 => some []
  | i, n + 1 => do
    let t ← extract_patch x l (r.sizeAt i)
    let ts ← extractFrom r x l (i + 1) n
    some (t :: ts)

/-- The resize loop of `retina.foveate`: every patch after the first is
average-pooled with kernel `patches[i].shape[-1] // patch_size`. -/
def poolAll (p : ℕ) : List Tensor4Q → Option (List Tensor4Q)
  | [] => some []
  | t :: ts => do
    let t2 ← avg_pool2d t (t.width / p)
    let ts2 ← poolAll p ts
    some (t2 :: ts2)

/-- The patch list of `retina.foveate` after the resize loop, immediately
before channel-wise concatenation. -/
def Retina.foveateResized (r : Retina) (x : Tensor4Q) (l : Tensor2Q) :
    Option (List Tensor4Q) := do
  match (← extractFrom r x l 0 r.num_patches) with
  | [] => some []
  | t :: ts => do return t :: (← poolAll r.patch_size ts)

/-- `retina.foveate(x, l)`: extract the multi-scale patches, resize, cat along
channels, flatten to (batch, features). -/
def Retina.foveate (r : Retina) (x : Tensor4Q) (l : Tensor2Q) : Option Tensor2Q := do
  return flattenT (← catChannel (← r.foveateResized x l))

/-- `nn.Linear(inF, outF)` over ℚ: weight rows indexed by output feature. -/
structure LinearQ where
  inF : ℕ
  outF : ℕ
  weight : ℕ → ℕ → ℚ
  bias : ℕ → ℚ

/-- Application of a linear layer to a rank-2 input; `none` models the matrix
multiplication error torch raises when the feature width differs from
`in_features`.  The batch axis is unconstrained, exactly as in torch. -/
def LinearQ.apply (f : LinearQ) (x : Tensor2Q) : Option Tensor2Q :=
  if x.width = f.inF then
    some ⟨x.batch, f.outF, fun b j =>
      (∑ i ∈ Finset.range f.inF, x.data b i * f.weight j i) + f.bias j⟩
  else none

/-- `F.relu` elementwise on a rank-2 tensor. -/
def reluT (x : Tensor2Q) : Tensor2Q := ⟨x.batch, x.width, fun b j => max 0 (x.data b j)⟩

/-- Torch broadcast of one axis: sizes must agree or one of them must be 1. -/
def bcastDim (m n : ℕ) : Option ℕ :=
  if m = n then some m else if m = 1 then some n else if n = 1 then some m else none

/-- Index into an axis of size `dim` under broadcasting. -/
def bIdx (dim i : ℕ) : ℕ := if dim = 1 then 0 else i

/-- Elementwise `+` on rank-2 tensors with torch broadcasting semantics;
`none` models the error raised on non-broadcastable shapes. -/
def addT (x y : Tensor2Q) : Option Tensor2Q := do
  let B ← bcastDim x.batch y.batch
  let W ← bcastDim x.width y.width
  return ⟨B, W, fun b j =>
    x.data (bIdx x.batch b) (bIdx x.width j) + y.data (bIdx y.batch b) (bIdx y.width j)⟩

/-- `GlimpseNet.__init__`: the hyperparameters together with the raw weights
of the four fully connected layers. -/
structure GlimpseNet where
  hidden_g : ℕ
  hidden_l : ℕ
  patch_size : ℕ
  num_patches : ℕ
  scale : ℚ
  num_channel : ℕ
  w1 : ℕ → ℕ → ℚ
  b1 : ℕ → ℚ
  w2 : ℕ → ℕ → ℚ
  b2 : ℕ → ℚ
  w3 : ℕ → ℕ → ℚ
  b3 : ℕ → ℚ
  w4 : ℕ → ℕ → ℚ
  b4 : ℕ → ℚ

/-- The retina held by `GlimpseNet.__init__`. -/
def GlimpseNet.retina (g : GlimpseNet) : Retina := ⟨g.patch_size, g.num_patches, g.scale⟩

/-- `D_in = num_patches*patch_size*patch_size*num_channel` from
`GlimpseNet.__init__`. -/
def GlimpseNet.D_in (g : GlimpseNet) : ℕ :=
  g.num_patches * g.patch_size * g.patch_size * g.num_channel

/-- `self.fc1 = nn.Linear(D_in, hidden_g)`. -/
def GlimpseNet.fc1 (g : GlimpseNet) : LinearQ := ⟨g.D_in, g.hidden_g, g.w1, g.b1⟩

/-- `self.fc2 = nn.Linear(2, hidden_l)`. -/
def GlimpseNet.fc2 (g : GlimpseNet) : LinearQ := ⟨2, g.hidden_l, g.w2, g.b2⟩

/-- `self.fc3 = nn.Linear(hidden_g, hidden_g+hidden_l)`. -/
def GlimpseNet.fc3 (g : GlimpseNet) : LinearQ :=
  ⟨g.hidden_g, g.hidden_g + g.hidden_l, g.w3, g.b3⟩

/-- `self.fc4 = nn.Linear(hidden_l, hidden_g+hidden_l)`. -/
def GlimpseNet.fc4 (g : GlimpseNet) : LinearQ :=
  ⟨g.hidden_l, g.hidden_g + g.hidden_l, g.w4, g.b4⟩

/-- `GlimpseNet.forward`: glimpse = foveate; what = fc3(relu(fc1(glimpse)));
where = fc4(relu(fc2(l_t))); output = relu(what + where). -/
def GlimpseNet.forward (g : GlimpseNet) (x_t : Tensor4Q) (l_t : Tensor2Q) :
    Option Tensor2Q := do
  let glimpse ← g.retina.foveate x_t l_t
  let what ← g.fc3.apply (reluT (← g.fc1.apply glimpse))
  let wher ← g.fc4.apply (reluT (← g.fc2.apply l_t))
  return reluT (← addT what wher)

/-- `core_network.__init__`: sizes together with the weights of the
input-to-hidden and hidden-to-hidden layers. -/
structure CoreNetwork where
  input_size : ℕ
  hidden_size : ℕ
  wI : ℕ → ℕ → ℚ
  bI : ℕ → ℚ
  wH : ℕ → ℕ → ℚ
  bH : ℕ → ℚ

/-- `self.i2h = nn.Linear(input_size, hidden_size)`. -/
def CoreNetwork.i2h (c : CoreNetwork) : LinearQ := ⟨c.input_size, c.hidden_size, c.wI, c.bI⟩

/-- `self.h2h = nn.Linear(hidden_size, hidden_size)`. -/
def CoreNetwork.h2h (c : CoreNetwork) : LinearQ := ⟨c.hidden_size, c.hidden_size, c.wH, c.bH⟩

/-- `core_network.forward`: `h_t = relu(i2h(g_t) + h2h(h_t_prev))`. -/
def CoreNetwork.forward (c : CoreNetwork) (g_t h_t_prev : Tensor2Q) : Option Tensor2Q := do
  let h1 ← c.i2h.apply g_t
  let h2 ← c.h2h.apply h_t_prev
  return reluT (← addT h1 h2)

/-- `core_network.init_state`: a zero hidden state of shape
(batch_size, hidden_size) and a location of shape (batch_size, 2) filled by
`torch.Tensor(batch_size, 2).uniform_(-1, 1)`.  The uniform draw is modelled
by the explicit sample `u`; `uniform_(-1, 1)` guarantees the sampled values
lie in `[-1, 1)`, which callers state as a hypothesis on `u`. -/
def CoreNetwork.init_state (c : CoreNetwork) (batch_size : ℕ) (u : ℕ → ℕ → ℚ) :
    Tensor2Q × Tensor2Q :=
  (⟨batch_size, c.hidden_size, fun _ _ => 0⟩, ⟨batch_size, 2, u⟩)

/-- Rank-2 tensor over ℝ, for the tanh-based location network. -/
structure Tensor2R where
  batch : ℕ
  width : ℕ
  data : ℕ → ℕ → ℝ

/-- `nn.Linear` over ℝ. -/
structure LinearR where
  inF : ℕ
  outF : ℕ
  weight : ℕ → ℕ → ℝ
  bias : ℕ → ℝ

/-- The affine map computed by a real linear layer (shape left unchecked). -/
noncomputable def LinearR.affine (f : LinearR) (x : Tensor2R) : Tensor2R :=
  ⟨x.batch, f.outF, fun b j =>
    (∑ i ∈ Finset.range f.inF, x.data b i * f.weight j i) + f.bias j⟩

/-- Checked application of a real linear layer; `none` models the matrix
multiplication error on a feature-width mismatch. -/
noncomputable def LinearR.apply (f : LinearR) (x : Tensor2R) : Option Tensor2R :=
  if x.width = f.inF then some (f.affine x) else none

/-- `F.tanh` elementwise on a rank-2 real tensor. -/
noncomputable def tanhT (x : Tensor2R) : Tensor2R :=
  ⟨x.batch, x.width, fun b j => Real.tanh (x.data b j)⟩

/-- `LocationNet.__init__`: layer sizes, the fixed standard deviation `std`,
and the weights of the single fully connected layer. -/
structure LocationNet where
  input_size : ℕ
  output_size : ℕ
  std : ℝ
  w : ℕ → ℕ → ℝ
  bs : ℕ → ℝ

/-- `self.fc = nn.Linear(input_size, output_size)`. -/
def LocationNet.fc (n : LocationNet) : LinearR := ⟨n.input_size, n.output_size, n.w, n.bs⟩

/-- `LocationNet.forward`: `mu = tanh(fc(h_t))`; noise drawn from
`np.random.normal(scale=std, size=mu.shape)`, modelled as `std * z` for an
explicit standard-normal sample `z`; `l_t = tanh(mu + noise)`.  The final
`l_t.detach()` severs the gradient path only, which this value-level model
does not represent. -/
noncomputable def LocationNet.forward (n : LocationNet) (h_t : Tensor2R)
    (z : ℕ → ℕ → ℝ) : Option (Tensor2R × Tensor2R) :=
  match n.fc.apply h_t with
  | none => none
  | some a =>
    let mu := tanhT a
    let l_t := tanhT ⟨mu.batch, mu.width, fun b j => mu.data b j + n.std * z b j⟩
    some (mu, l_t)

/-! ### Arithmetic facts about coordinates and slices -/

lemma toLong_of_nonneg {q : ℚ} (h : 0 ≤ q) : toLong q = ⌊q⌋ := by
  simp [toLong, not_lt.mpr h]

lemma pixCoord_nonneg (n : ℕ) {v : ℚ} (hv : -1 ≤ v) : 0 ≤ pixCoord n v := by
  have hq : (0 : ℚ) ≤ 1/2 * ((v + 1) * (n : ℚ)) := by
    have h1 : (0 : ℚ) ≤ v + 1 := by linarith
    have h2 : (0 : ℚ) ≤ (n : ℚ) := Nat.cast_nonneg n
    positivity
  rw [pixCoord, toLong_of_nonneg hq]
  exact Int.floor_nonneg.mpr hq

lemma pixCoord_le (n : ℕ) {v : ℚ} (hv1 : -1 ≤ v) (hv2 : v ≤ 1) : pixCoord n v ≤ n := by
  have hq : (0 : ℚ) ≤ 1/2 * ((v + 1) * (n : ℚ)) := by
    have h1 : (0 : ℚ) ≤ v + 1 := by linarith
    have h2 : (0 : ℚ) ≤ (n : ℚ) := Nat.cast_nonneg n
    positivity
  have hn : (0 : ℚ) ≤ (n : ℚ) := Nat.cast_nonneg n
  have hle : 1/2 * ((v + 1) * (n : ℚ)) ≤ (n : ℚ) := by nlinarith
  rw [pixCoord, toLong_of_nonneg hq]
  calc ⌊1/2 * ((v + 1) * (n : ℚ))⌋ ≤ ⌊(n : ℚ)⌋ := Int.floor_le_floor hle
    _ = n := Int.floor_natCast n

lemma pyIdx_of_nonneg_le {n : ℕ} {i : ℤ} (h0 : 0 ≤ i) (hn : i ≤ n) :
    pyIdx n i = i.toNat := by
  rw [pyIdx, if_neg (not_lt.mpr h0)]
  exact min_eq_left (by omega)

lemma slice_full {n size : ℕ} {i : ℤ} (h0 : 0 ≤ i) (hn : i ≤ n) :
    pyIdx (n + size) (i + size) - pyIdx (n + size) i = size := by
  rw [pyIdx_of_nonneg_le h0 (by omega), pyIdx_of_nonneg_le (by omega) (by omega)]
  omega

/-! ### Exact extraction under the safe-configuration hypotheses -/

lemma extract_patch_spec (x : Tensor4Q) (l : Tensor2Q) (size : ℕ)
    (hsq : x.height = x.width) (hev : size % 2 = 0) (hB : 0 < x.batch)
    (hlw : l.width = 2) (hlB : x.batch ≤ l.batch)
    (hl : ∀ b, b < x.batch → -1 ≤ l.data b 0 ∧ l.data b 0 ≤ 1 ∧
      -1 ≤ l.data b 1 ∧ l.data b 1 ≤ 1) :
    ∃ t, extract_patch x l size = some t ∧ t.batch = x.batch ∧ t.chans = x.chans ∧
      t.height = size ∧ t.width = size := by
  have h2 : 2 * (size / 2) = size := by omega
  have hloc : ∀ b j, locAt l b j = l.data b j := by
    intro b j
    simp [locAt, hlw]
  have hHfull : ∀ b, b < x.batch →
      pyIdx (constantPad2d (size / 2) 0 x).height
          (pixCoord x.width (locAt l b 1) + size) -
        pyIdx (constantPad2d (size / 2) 0 x).height (pixCoord x.width (locAt l b 1)) =
        size := by
    intro b hb
    obtain ⟨h0, h1, h2b, h3⟩ := hl b hb
    have hext : (constantPad2d (size / 2) 0 x).height = x.height + size := by
      simp [constantPad2d]
      omega
    rw [hext, hloc]
    exact slice_full (pixCoord_nonneg _ h2b) (hsq ▸ pixCoord_le _ h2b h3)
  have hWfull : ∀ b, b < x.batch →
      pyIdx (constantPad2d (size / 2) 0 x).width
          (pixCoord x.height (locAt l b 0) + size) -
        pyIdx (constantPad2d (size / 2) 0 x).width (pixCoord x.height (locAt l b 0)) =
        size := by
    intro b hb
    obtain ⟨h0, h1, h2b, h3⟩ := hl b hb
    have hext : (constantPad2d (size / 2) 0 x).width = x.width + size := by
      simp [constantPad2d]
      omega
    rw [hext, hloc]
    exact slice_full (pixCoord_nonneg _ h0) (hsq ▸ pixCoord_le _ h0 h1)
  rw [extract_patch]
  rw [if_neg (by omega), if_neg (by simp [hlw]), if_neg (by omega), if_pos ?cond]
  case cond =>
    intro b hb
    exact ⟨(hHfull b hb).trans (hHfull 0 hB).symm, (hWfull b hb).trans (hWfull 0 hB).symm⟩
  exact ⟨_, rfl, rfl, rfl, hHfull 0 hB, hWfull 0 hB⟩

/-! ### Patch sizes for an integer scale factor -/

lemma sizeAt_int (p n k : ℕ) : ∀ i, (Retina.mk p n (k : ℚ)).sizeAt i = p * k ^ i := by
  intro i
  induction i with
  | zero => simp [Retina.sizeAt]
  | succ m ih =>
    rw [Retina.sizeAt, ih]
    have hcast : ((k : ℚ)) * ((p * k ^ m : ℕ) : ℚ) = ((k * (p * k ^ m) : ℕ) : ℚ) := by
      push_cast
      ring
    rw [hcast, toLong_of_nonneg (by positivity), Int.floor_natCast, Int.toNat_natCast]
    ring

/-! ### Shapes through the resize loop -/

lemma avg_pool2d_spec (t : Tensor4Q) (p q : ℕ) (hp : 0 < p) (hq : 0 < q)
    (hh : t.height = p * q) (hw : t.width = p * q) :
    ∃ u, avg_pool2d t (t.width / p) = some u ∧ u.batch = t.batch ∧ u.chans = t.chans ∧
      u.height = p ∧ u.width = p := by
  have hk : t.width / p = q := by
    rw [hw]
    exact Nat.mul_div_cancel_left q hp
  have hle : q ≤ p * q := Nat.le_mul_of_pos_left q hp
  have hside : (p * q - q) / q + 1 = p := by
    have : p * q - q = (p - 1) * q := by
      rw [Nat.sub_mul, one_mul]
    rw [this, Nat.mul_div_cancel _ hq]
    omega
  rw [hk, avg_pool2d, if_neg (by push_neg; exact ⟨by omega, by omega, by omega⟩)]
  exact ⟨_, rfl, rfl, rfl, by simp [hh, hside], by simp [hw, hside]⟩

lemma poolAll_spec (p B C : ℕ) (hp : 0 < p) :
    ∀ L : List Tensor4Q,
      (∀ t ∈ L, t.batch = B ∧ t.chans = C ∧
        ∃ q, 0 < q ∧ t.height = p * q ∧ t.width = p * q) →
      ∃ L2, poolAll p L = some L2 ∧ L2.length = L.length ∧
        ∀ u ∈ L2, u.batch = B ∧ u.chans = C ∧ u.height = p ∧ u.width = p := by
  intro L
  induction L with
  | nil => exact fun _ => ⟨[], rfl, rfl, by simp⟩
  | cons t ts ih =>
    intro hall
    obtain ⟨hb, hc, q, hq, hh, hw⟩ := hall t (List.mem_cons_self t ts)
    obtain ⟨u, hu, hub, huc, huh, huw⟩ := avg_pool2d_spec t p q hp hq hh hw
    obtain ⟨L2, hL2, hlen, hprops⟩ := ih (fun s hs => hall s (List.mem_cons_of_mem t hs))
    refine ⟨u :: L2, ?_, by simp [hlen], ?_⟩
    · rw [poolAll, hu, hL2]
      rfl
    · intro v hv
      rcases List.mem_cons.mp hv with hv | hv
      · exact hv ▸ ⟨hub.trans hb, huc.trans hc, huh, huw⟩
      · exact hprops v hv

/-! ### Shapes through the extraction loop -/

lemma extractFrom_spec (r : Retina) (x : Tensor4Q) (l : Tensor2Q)
    (hsq : x.height = x.width) (hB : 0 < x.batch) (hlw : l.width = 2)
    (hlB : x.batch ≤ l.batch)
    (hl : ∀ b, b < x.batch → -1 ≤ l.data b 0 ∧ l.data b 0 ≤ 1 ∧
      -1 ≤ l.data b 1 ∧ l.data b 1 ≤ 1)
    (hev : ∀ i, r.sizeAt i % 2 = 0) :
    ∀ n i0, ∃ L, extractFrom r x l i0 n = some L ∧ L.length = n ∧
      ∀ m (hm : m < L.length), (L.get ⟨m, hm⟩).batch = x.batch ∧
        (L.get ⟨m, hm⟩).chans = x.chans ∧
        (L.get ⟨m, hm⟩).height = r.sizeAt (i0 + m) ∧
        (L.get ⟨m, hm⟩).width = r.sizeAt (i0 + m) := by
  intro n
  induction n with
  | zero =>
    intro i0
    exact ⟨[], rfl, rfl, fun m hm => absurd hm (by simp)⟩
  | succ n ih =>
    intro i0
    obtain ⟨t, ht, htb, htc, hth, htw⟩ :=
      extract_patch_spec x l (r.sizeAt i0) hsq (hev i0) hB hlw hlB hl
    obtain ⟨L, hL, hlen, hprops⟩ := ih (i0 + 1)
    refine ⟨t :: L, ?_, by simp [hlen], ?_⟩
    · rw [extractFrom, ht, hL]
      rfl
    · intro m hm
      match m with
      | 0 => exact ⟨htb, htc, by simpa using hth, by simpa using htw⟩
      | m + 1 =>
        have hm2 : m < L.length := by simpa using hm
        have := hprops m hm2
        simpa [Nat.add_comm, Nat.add_assoc, Nat.add_left_comm] using this

/-! ### Shapes through concatenation -/

lemma catChannel_spec (B C hh ww : ℕ) :
    ∀ L : List Tensor4Q, L ≠ [] →
      (∀ t ∈ L, t.batch = B ∧ t.chans = C ∧ t.height = hh ∧ t.width = ww) →
      ∃ c, catChannel L = some c ∧ c.batch = B ∧ c.chans = L.length * C ∧
        c.height = hh ∧ c.width = ww := by
  intro L
  induction L with
  | nil => exact fun h _ => absurd rfl h
  | cons t ts ih =>
    intro _ hall
    obtain ⟨hb, hc, hhh, hww⟩ := hall t (List.mem_cons_self t ts)
    match ts, ih with
    | [], _ =>
      exact ⟨t, rfl, hb, by simp [hc], hhh, hww⟩
    | u :: us, ih =>
      obtain ⟨c, hcat, hcb, hcc, hch, hcw⟩ :=
        ih (by simp) (fun s hs => hall s (List.mem_cons_of_mem t hs))
      refine ⟨⟨t.batch, t.chans + c.chans, t.height, t.width, fun b ch i j =>
        if ch < t.chans then t.data b ch i j else c.data b (ch - t.chans) i j⟩,
        ?_, hb, ?_, hhh, hww⟩
      · rw [catChannel, hcat]
        show catChannel2 t c = _
        rw [catChannel2, if_pos ⟨hb.trans hcb.symm, hhh.trans hch.symm, hww.trans hcw.symm⟩]
      · show t.chans + c.chans = (t :: u :: us).length * C
        rw [hc, hcc]
        simp only [List.length_cons]
        ring

lemma sizeAt_of_scale_int (r : Retina) (k : ℕ) (hsc : r.scale = (k : ℚ)) :
    ∀ i, r.sizeAt i = r.patch_size * k ^ i := by
  intro i
  induction i with
  | zero => simp [Retina.sizeAt]
  | succ m ih =>
    rw [Retina.sizeAt, ih, hsc]
    have hcast : ((k : ℚ)) * ((r.patch_size * k ^ m : ℕ) : ℚ) =
        ((k * (r.patch_size * k ^ m) : ℕ) : ℚ) := by
      push_cast
      ring
    rw [hcast, toLong_of_nonneg (by positivity), Int.floor_natCast, Int.toNat_natCast]
    ring

lemma foveateResized_spec (r : Retina) (x : Tensor4Q) (l : Tensor2Q)
    (hp : 0 < r.patch_size)
    (hev : ∀ i, r.sizeAt i % 2 = 0)
    (hmul : ∀ i, 0 < i → ∃ q, 0 < q ∧ r.sizeAt i = r.patch_size * q)
    (hsq : x.height = x.width) (hB : 0 < x.batch) (hlw : l.width = 2)
    (hlB : x.batch ≤ l.batch)
    (hl : ∀ b, b < x.batch → -1 ≤ l.data b 0 ∧ l.data b 0 ≤ 1 ∧
      -1 ≤ l.data b 1 ∧ l.data b 1 ≤ 1) :
    ∃ L, r.foveateResized x l = some L ∧ L.length = r.num_patches ∧
      ∀ t ∈ L, t.batch = x.batch ∧ t.chans = x.chans ∧
        t.height = r.patch_size ∧ t.width = r.patch_size := by
  obtain ⟨L0, hL0, hlen0, hprops0⟩ :=
    extractFrom_spec r x l hsq hB hlw hlB hl hev r.num_patches 0
  match L0, hL0, hlen0, hprops0 with
  | [], hL0, hlen0, _ =>
    refine ⟨[], ?_, by simp [← hlen0], by simp⟩
    rw [Retina.foveateResized, hL0]
    rfl
  | t :: ts, hL0, hlen0, hprops0 =>
    have hts : ∀ u ∈ ts, u.batch = x.batch ∧ u.chans = x.chans ∧
        ∃ q, 0 < q ∧ u.height = r.patch_size * q ∧ u.width = r.patch_size * q := by
      intro u hu
      obtain ⟨⟨m, hm⟩, hget⟩ := List.mem_iff_get.mp hu
      have hm1 : m + 1 < (t :: ts).length := by simpa using Nat.succ_lt_succ hm
      have hgu : (t :: ts).get ⟨m + 1, hm1⟩ = u := by simpa using hget
      obtain ⟨hb, hc, hh, hw⟩ := hprops0 (m + 1) hm1
      rw [hgu] at hb hc hh hw
      obtain ⟨q, hq, hs⟩ := hmul (0 + (m + 1)) (by omega)
      exact ⟨hb, hc, q, hq, by rw [hh, hs], by rw [hw, hs]⟩
    obtain ⟨L2, hL2, hlen2, hprops2⟩ := poolAll_spec r.patch_size x.batch x.chans hp ts hts
    have ht0 := hprops0 0 (by simp)
    refine ⟨t :: L2, ?_, ?_, ?_⟩
    · rw [Retina.foveateResized, hL0]
      show (poolAll r.patch_size ts).bind (fun ts2 => some (t :: ts2)) = some (t :: L2)
      rw [hL2]
      rfl
    · simp only [List.length_cons, hlen2]
      simpa using hlen0
    · intro v hv
      rcases List.mem_cons.mp hv with hv | hv
      · subst hv
        obtain ⟨hb, hc, hh, hw⟩ := ht0
        refine ⟨hb, hc, ?_, ?_⟩
        · simpa [Retina.sizeAt] using hh
        · simpa [Retina.sizeAt] using hw
      · exact hprops2 v hv

/-! ### Concrete configurations used by counterexamples and witnesses -/

/-- A 1×1 single-channel, single-element image batch with constant value 5. -/
def img1 : Tensor4Q := ⟨1, 1, 1, 1, fun _ _ _ _ => 5⟩

/-- One location at the extreme corner (1, 1). -/
def locCorner : Tensor2Q := ⟨1, 2, fun _ _ => 1⟩

/-- One location at the extreme corner (-1, -1). -/
def locNeg : Tensor2Q := ⟨1, 2, fun _ _ => -1⟩

/-- One location at the centre (0, 0). -/
def loc0 : Tensor2Q := ⟨1, 2, fun _ _ => 0⟩

/-- A retina with an odd patch size (1) and a single scale. -/
def retinaOdd : Retina := ⟨1, 1, 2⟩

/-- A retina with patch size 2, two scales, integer scale factor 2. -/
def retina2 : Retina := ⟨2, 2, 2⟩

/-- A retina with patch size 4, two scales, fractional scale factor 11/4. -/
def retina11q : Retina := ⟨4, 2, 11/4⟩

/-- A retina with patch size 3, two scales, fractional scale factor 3/2. -/
def retina32 : Retina := ⟨3, 2, 3/2⟩

/-- A 4×4 single-channel, single-element image batch. -/
def img4 : Tensor4Q := ⟨1, 1, 4, 4, fun _ _ i j => (i : ℚ) + (j : ℚ)⟩

/-! ### Claim C1 -/

/-- Claim C1 counterexample: with the odd patch size 1 on a 1×1 image and the
extreme corner location (1, 1), `retina.foveate` returns a tensor of shape
(1, 0) instead of the claimed (batch, num_patches * channels * patch_size *
patch_size) = (1, 1): the padding `size // 2 = 0` is too small at the corner,
the Python slice is clamped, and the patch is empty. -/
theorem claim_C1_counterexample :
    (retinaOdd.foveate img1 locCorner).map (fun t => (t.batch, t.width)) = some (1, 0) ∧
      (1, 0) ≠ (1, retinaOdd.num_patches * img1.chans *
        (retinaOdd.patch_size * retinaOdd.patch_size)) := by
  constructor
  · decide
  · decide

lemma foveate_spec (r : Retina) (x : Tensor4Q) (l : Tensor2Q) (k : ℕ)
    (hsc : r.scale = (k : ℚ)) (hk : 0 < k) (hp : 0 < r.patch_size)
    (hpe : r.patch_size % 2 = 0) (hn : 0 < r.num_patches)
    (hsq : x.height = x.width) (hB : 0 < x.batch) (hlw : l.width = 2)
    (hlB : x.batch ≤ l.batch)
    (hl : ∀ b, b < x.batch → -1 ≤ l.data b 0 ∧ l.data b 0 ≤ 1 ∧
      -1 ≤ l.data b 1 ∧ l.data b 1 ≤ 1) :
    ∃ t, r.foveate x l = some t ∧ t.batch = x.batch ∧
      t.width = r.num_patches * x.chans * (r.patch_size * r.patch_size) := by
  have hev : ∀ i, r.sizeAt i % 2 = 0 := by
    intro i
    rw [sizeAt_of_scale_int r k hsc i, Nat.mul_mod, hpe, Nat.zero_mul, Nat.zero_mod]
  have hmul : ∀ i, 0 < i → ∃ q, 0 < q ∧ r.sizeAt i = r.patch_size * q :=
    fun i _ => ⟨k ^ i, Nat.pos_pow_of_pos i hk, sizeAt_of_scale_int r k hsc i⟩
  obtain ⟨L, hres, hlen, hprops⟩ :=
    foveateResized_spec r x l hp hev hmul hsq hB hlw hlB hl
  have hne : L ≠ [] := by
    intro h
    rw [h] at hlen
    simp at hlen
    omega
  obtain ⟨c, hcat, hcb, hcc, hch, hcw⟩ :=
    catChannel_spec x.batch x.chans r.patch_size r.patch_size L hne hprops
  refine ⟨flattenT c, ?_, ?_, ?_⟩
  · rw [Retina.foveate, hres]
    show (do return flattenT (← catChannel L)) = _
    rw [hcat]
    rfl
  · exact hcb
  · show c.chans * c.height * c.width = _
    rw [hcc, hch, hcw, hlen]
    ring

/-- Claim C1 (amended): for a SQUARE image, an EVEN positive patch size, a
positive integer scale factor, at least one patch, a nonempty batch, and
every location coordinate in [-1, 1] (the extreme corners included),
`retina.foveate` returns a tensor of shape exactly
(batch, num_patches * channels * patch_size * patch_size). -/
theorem claim_C1_amended (r : Retina) (x : Tensor4Q) (l : Tensor2Q) (k : ℕ)
    (hsc : r.scale = (k : ℚ)) (hk : 0 < k) (hp : 0 < r.patch_size)
    (hpe : r.patch_size % 2 = 0) (hn : 0 < r.num_patches)
    (hsq : x.height = x.width) (hB : 0 < x.batch) (hlw : l.width = 2)
    (hlB : x.batch ≤ l.batch)
    (hl : ∀ b, b < x.batch → -1 ≤ l.data b 0 ∧ l.data b 0 ≤ 1 ∧
      -1 ≤ l.data b 1 ∧ l.data b 1 ≤ 1) :
    ∃ t, r.foveate x l = some t ∧ t.batch = x.batch ∧
      t.width = r.num_patches * x.chans * (r.patch_size * r.patch_size) :=
  foveate_spec r x l k hsc hk hp hpe hn hsq hB hlw hlB hl

/-- Claim C1 witness: the amended statement holds at the concrete
configuration patch_size 2, two patches, scale factor 2, a 4×4 image and the
centre location; the output width is 2 * 1 * (2 * 2) = 8. -/
theorem claim_C1_witness :
    (retina2.scale = ((2 : ℕ) : ℚ) ∧ 0 < (2 : ℕ) ∧ 0 < retina2.patch_size ∧
      retina2.patch_size % 2 = 0 ∧ 0 < retina2.num_patches ∧
      img4.height = img4.width ∧ 0 < img4.batch ∧ loc0.width = 2 ∧
      img4.batch ≤ loc0.batch ∧
      (∀ b, b < img4.batch → -1 ≤ loc0.data b 0 ∧ loc0.data b 0 ≤ 1 ∧
        -1 ≤ loc0.data b 1 ∧ loc0.data b 1 ≤ 1)) ∧
    ∃ t, retina2.foveate img4 loc0 = some t ∧ t.batch = img4.batch ∧
      t.width = retina2.num_patches * img4.chans *
        (retina2.patch_size * retina2.patch_size) := by
  have hl : ∀ b, b < img4.batch → -1 ≤ loc0.data b 0 ∧ loc0.data b 0 ≤ 1 ∧
      -1 ≤ loc0.data b 1 ∧ loc0.data b 1 ≤ 1 := by
    intro b _
    exact ⟨(by decide : (-1 : ℚ) ≤ 0), (by decide : (0 : ℚ) ≤ 1),
      (by decide : (-1 : ℚ) ≤ 0), (by decide : (0 : ℚ) ≤ 1)⟩
  have hsc : retina2.scale = ((2 : ℕ) : ℚ) := by decide
  exact ⟨⟨hsc, by decide, by decide, by decide, by decide, rfl, by decide, rfl,
      by decide, hl⟩,
    claim_C1_amended retina2 img4 loc0 2 hsc (by decide) (by decide) (by decide)
      (by decide) rfl (by decide) rfl (by decide) hl⟩

/-! ### Claim C2 -/

/-- Claim C2 counterexample: with patch size 1 (odd) on a 1×1 image at
location (1, 1), the padding is `1 // 2 = 0` — NOT at least half the largest
patch side — and the computed slice [1, 2) exceeds the padded extent 1, so
an out-of-range (clamped) slice occurs: the extracted patch is 0×0. -/
theorem claim_C2_counterexample :
    ¬ (pixCoord img1.width (locCorner.data 0 1) + (1 : ℕ) ≤
        ((constantPad2d (1 / 2) 0 img1).height : ℤ)) ∧
      (extract_patch img1 locCorner 1).map (fun t => (t.height, t.width)) = some (0, 0) := by
  constructor
  · decide
  · decide

/-- Claim C2 (amended): the code pads each extraction by `size // 2` — half
the CURRENT scale's patch side, not half the largest one.  For a SQUARE
image, an EVEN patch side and locations in [-1, 1]², this per-extraction
padding suffices: every computed slice bound [from, from + size) lies inside
the padded buffer on both axes, and the extracted patch is a full
size × size window for every batch element. -/
theorem claim_C2_amended (x : Tensor4Q) (l : Tensor2Q) (size : ℕ)
    (hsq : x.height = x.width) (hev : size % 2 = 0) (hB : 0 < x.batch)
    (hlw : l.width = 2) (hlB : x.batch ≤ l.batch)
    (hl : ∀ b, b < x.batch → -1 ≤ l.data b 0 ∧ l.data b 0 ≤ 1 ∧
      -1 ≤ l.data b 1 ∧ l.data b 1 ≤ 1) :
    (∀ b, b < x.batch →
      0 ≤ pixCoord x.width (l.data b 1) ∧
      pixCoord x.width (l.data b 1) + size ≤ ((constantPad2d (size / 2) 0 x).height : ℤ) ∧
      0 ≤ pixCoord x.height (l.data b 0) ∧
      pixCoord x.height (l.data b 0) + size ≤ ((constantPad2d (size / 2) 0 x).width : ℤ)) ∧
    ∃ t, extract_patch x l size = some t ∧ t.height = size ∧ t.width = size := by
  have h2 : 2 * (size / 2) = size := by omega
  have hexth : (constantPad2d (size / 2) 0 x).height = x.height + size := by
    simp [constantPad2d]
    omega
  have hextw : (constantPad2d (size / 2) 0 x).width = x.width + size := by
    simp [constantPad2d]
    omega
  constructor
  · intro b hb
    obtain ⟨h0, h1, h2b, h3⟩ := hl b hb
    have hy0 : 0 ≤ pixCoord x.width (l.data b 1) := pixCoord_nonneg _ h2b
    have hy1 : pixCoord x.width (l.data b 1) ≤ x.width := pixCoord_le _ h2b h3
    have hx0 : 0 ≤ pixCoord x.height (l.data b 0) := pixCoord_nonneg _ h0
    have hx1 : pixCoord x.height (l.data b 0) ≤ x.height := pixCoord_le _ h0 h1
    refine ⟨hy0, ?_, hx0, ?_⟩
    · rw [hexth]
      push_cast
      omega
    · rw [hextw]
      push_cast
      omega
  · obtain ⟨t, ht, _, _, hth, htw⟩ :=
      extract_patch_spec x l size hsq hev hB hlw hlB hl
    exact ⟨t, ht, hth, htw⟩

/-- Claim C2 witness: the amended statement holds at the concrete
configuration of a 4×4 image, centre location, patch side 2. -/
theorem claim_C2_witness :
    (img4.height = img4.width ∧ (2 : ℕ) % 2 = 0 ∧ 0 < img4.batch ∧ loc0.width = 2 ∧
      img4.batch ≤ loc0.batch ∧
      (∀ b, b < img4.batch → -1 ≤ loc0.data b 0 ∧ loc0.data b 0 ≤ 1 ∧
        -1 ≤ loc0.data b 1 ∧ loc0.data b 1 ≤ 1)) ∧
    ((∀ b, b < img4.batch →
      0 ≤ pixCoord img4.width (loc0.data b 1) ∧
      pixCoord img4.width (loc0.data b 1) + (2 : ℕ) ≤
        ((constantPad2d (2 / 2) 0 img4).height : ℤ) ∧
      0 ≤ pixCoord img4.height (loc0.data b 0) ∧
      pixCoord img4.height (loc0.data b 0) + (2 : ℕ) ≤
        ((constantPad2d (2 / 2) 0 img4).width : ℤ)) ∧
    ∃ t, extract_patch img4 loc0 2 = some t ∧ t.height = 2 ∧ t.width = 2) := by
  have hl : ∀ b, b < img4.batch → -1 ≤ loc0.data b 0 ∧ loc0.data b 0 ≤ 1 ∧
      -1 ≤ loc0.data b 1 ∧ loc0.data b 1 ≤ 1 := by
    intro b _
    refine ⟨by norm_num [loc0], by norm_num [loc0], by norm_num [loc0], by norm_num [loc0]⟩
  exact ⟨⟨rfl, rfl, by norm_num [img4], rfl, by norm_num [img4, loc0], hl⟩,
    claim_C2_amended img4 loc0 2 rfl rfl (by norm_num [img4]) rfl
      (by norm_num [img4, loc0]) hl⟩

/-! ### Claim C3 -/

/-- Claim C3 counterexample: with patch size 4 and scale factor 11/4, the
second patch has side `int(2.75 * 4) = 11`, the resize kernel is
`11 // 4 = 2`, and average-pooling an 11×11 patch with kernel 2 yields a 5×5
patch — the patches after resizing are 4×4 and 5×5, not all 4×4 (and the
subsequent `torch.cat` would fail). -/
theorem claim_C3_counterexample :
    (retina11q.foveateResized img4 locNeg).map (List.map (fun t => (t.height, t.width))) =
      some [(4, 4), (5, 5)] ∧
      ((5, 5) : ℕ × ℕ) ≠ (retina11q.patch_size, retina11q.patch_size) := by
  constructor
  · decide
  · decide

/-- Claim C3 (amended): for a SQUARE image, an EVEN positive patch size, a
positive INTEGER scale factor, a nonempty batch and locations in [-1, 1]²,
all patches produced by the resize step of `retina.foveate` have spatial
dimensions exactly patch_size × patch_size before concatenation. -/
theorem claim_C3_amended (r : Retina) (x : Tensor4Q) (l : Tensor2Q) (k : ℕ)
    (hsc : r.scale = (k : ℚ)) (hk : 0 < k) (hp : 0 < r.patch_size)
    (hpe : r.patch_size % 2 = 0)
    (hsq : x.height = x.width) (hB : 0 < x.batch) (hlw : l.width = 2)
    (hlB : x.batch ≤ l.batch)
    (hl : ∀ b, b < x.batch → -1 ≤ l.data b 0 ∧ l.data b 0 ≤ 1 ∧
      -1 ≤ l.data b 1 ∧ l.data b 1 ≤ 1) :
    ∃ L, r.foveateResized x l = some L ∧ L.length = r.num_patches ∧
      ∀ t ∈ L, t.height = r.patch_size ∧ t.width = r.patch_size := by
  have hev : ∀ i, r.sizeAt i % 2 = 0 := by
    intro i
    rw [sizeAt_of_scale_int r k hsc i, Nat.mul_mod, hpe, Nat.zero_mul, Nat.zero_mod]
  have hmul : ∀ i, 0 < i → ∃ q, 0 < q ∧ r.sizeAt i = r.patch_size * q :=
    fun i _ => ⟨k ^ i, Nat.pos_pow_of_pos i hk, sizeAt_of_scale_int r k hsc i⟩
  obtain ⟨L, hres, hlen, hprops⟩ :=
    foveateResized_spec r x l hp hev hmul hsq hB hlw hlB hl
  exact ⟨L, hres, hlen, fun t ht => ⟨(hprops t ht).2.2.1, (hprops t ht).2.2.2⟩⟩

/-- Claim C3 witness: the amended statement holds at the concrete
configuration patch_size 2, two patches, scale factor 2, a 4×4 image and the
centre location. -/
theorem claim_C3_witness :
    (retina2.scale = ((2 : ℕ) : ℚ) ∧ 0 < (2 : ℕ) ∧ 0 < retina2.patch_size ∧
      retina2.patch_size % 2 = 0 ∧ img4.height = img4.width ∧ 0 < img4.batch ∧
      loc0.width = 2 ∧ img4.batch ≤ loc0.batch ∧
      (∀ b, b < img4.batch → -1 ≤ loc0.data b 0 ∧ loc0.data b 0 ≤ 1 ∧
        -1 ≤ loc0.data b 1 ∧ loc0.data b 1 ≤ 1)) ∧
    ∃ L, retina2.foveateResized img4 loc0 = some L ∧ L.length = retina2.num_patches ∧
      ∀ t ∈ L, t.height = retina2.patch_size ∧ t.width = retina2.patch_size := by
  have hl : ∀ b, b < img4.batch → -1 ≤ loc0.data b 0 ∧ loc0.data b 0 ≤ 1 ∧
      -1 ≤ loc0.data b 1 ∧ loc0.data b 1 ≤ 1 := by
    intro b _
    exact ⟨(by decide : (-1 : ℚ) ≤ 0), (by decide : (0 : ℚ) ≤ 1),
      (by decide : (-1 : ℚ) ≤ 0), (by decide : (0 : ℚ) ≤ 1)⟩
  have hsc : retina2.scale = ((2 : ℕ) : ℚ) := by decide
  exact ⟨⟨hsc, by decide, by decide, by decide, rfl, by decide, rfl, by decide, hl⟩,
    claim_C3_amended retina2 img4 loc0 2 hsc (by decide) (by decide) (by decide)
      rfl (by decide) rfl (by decide) hl⟩

/-! ### Claim C4 -/

/-- Claim C4 counterexample: with patch size 3 and scale factor 3/2 the
second requested patch side is `int(1.5 * 3) = 4`, not the claimed
geometric value `3 * (3/2)^1 = 4.5`: the sequence of sides is not exactly
geometric with ratio scale_factor. -/
theorem claim_C4_counterexample :
    ((retina32.sizeAt 1 : ℕ) : ℚ) ≠ (retina32.patch_size : ℚ) * retina32.scale ^ 1 := by
  decide

/-- Claim C4 (amended): the requested patch sides follow the truncating
recurrence `s 0 = patch_size`, `s (i+1) = int(scale * s i)`; when the scale
factor is a natural number k, the sequence is exactly geometric:
`s i = patch_size * k ^ i` for every scale index i. -/
theorem claim_C4_amended (p n k : ℕ) :
    ∀ i, (Retina.mk p n (k : ℚ)).sizeAt i = p * k ^ i :=
  sizeAt_of_scale_int (Retina.mk p n (k : ℚ)) k rfl

/-! ### Claim C7 -/

lemma LinearQ.apply_eq (f : LinearQ) (x : Tensor2Q) (h : x.width = f.inF) :
    ∃ y, f.apply x = some y ∧ y.batch = x.batch ∧ y.width = f.outF := by
  rw [LinearQ.apply, if_pos h]
  exact ⟨_, rfl, rfl, rfl⟩

lemma addT_eq (x y : Tensor2Q) (hb : x.batch = y.batch) (hw : x.width = y.width) :
    ∃ s, addT x y = some s ∧ s.batch = x.batch ∧ s.width = x.width := by
  have h1 : bcastDim x.batch y.batch = some x.batch := by rw [bcastDim, if_pos hb]
  have h2 : bcastDim x.width y.width = some x.width := by rw [bcastDim, if_pos hw]
  rw [addT, h1, h2]
  exact ⟨_, rfl, rfl, rfl⟩

/-- Claim C7: for valid inputs (square image, even positive patch size,
positive integer scale factor, at least one patch, matching channel count and
batch sizes, locations in [-1, 1]²), `GlimpseNet.forward` computes
relu(fc3(relu(fc1(foveate(x, l)))) + fc4(relu(fc2(l)))), the two summed
streams both have width hidden_g + hidden_l, and the result has shape
(batch, hidden_g + hidden_l). -/
theorem claim_C7 (g : GlimpseNet) (x : Tensor4Q) (l : Tensor2Q) (k : ℕ)
    (hsc : g.scale = (k : ℚ)) (hk : 0 < k) (hp : 0 < g.patch_size)
    (hpe : g.patch_size % 2 = 0) (hn : 0 < g.num_patches)
    (hc : x.chans = g.num_channel)
    (hsq : x.height = x.width) (hB : 0 < x.batch) (hlw : l.width = 2)
    (hlB : l.batch = x.batch)
    (hl : ∀ b, b < x.batch → -1 ≤ l.data b 0 ∧ l.data b 0 ≤ 1 ∧
      -1 ≤ l.data b 1 ∧ l.data b 1 ≤ 1) :
    ∃ glimpse a1 a2 what wher s,
      g.retina.foveate x l = some glimpse ∧
      g.fc1.apply glimpse = some a1 ∧
      g.fc3.apply (reluT a1) = some what ∧
      g.fc2.apply l = some a2 ∧
      g.fc4.apply (reluT a2) = some wher ∧
      what.width = g.hidden_g + g.hidden_l ∧
      wher.width = g.hidden_g + g.hidden_l ∧
      addT what wher = some s ∧
      g.forward x l = some (reluT s) ∧
      (reluT s).batch = x.batch ∧
      (reluT s).width = g.hidden_g + g.hidden_l := by
  obtain ⟨glimpse, hfov, hgb, hgw⟩ :=
    foveate_spec g.retina x l k hsc hk hp hpe hn hsq hB hlw (hlB.ge.trans_eq rfl) hl
  have hw1 : glimpse.width = g.fc1.inF := by
    have hr1 : g.retina.num_patches = g.num_patches := rfl
    have hr2 : g.retina.patch_size = g.patch_size := rfl
    show _ = g.D_in
    rw [hgw, hc, hr1, hr2, GlimpseNet.D_in]
    ring
  obtain ⟨a1, ha1, ha1b, ha1w⟩ := LinearQ.apply_eq g.fc1 glimpse hw1
  have hw3 : (reluT a1).width = g.fc3.inF := ha1w
  obtain ⟨what, hwhat, hwb, hww⟩ := LinearQ.apply_eq g.fc3 (reluT a1) hw3
  have hw2 : l.width = g.fc2.inF := hlw
  obtain ⟨a2, ha2, ha2b, ha2w⟩ := LinearQ.apply_eq g.fc2 l hw2
  have hw4 : (reluT a2).width = g.fc4.inF := ha2w
  obtain ⟨wher, hwher, hhb, hhw⟩ := LinearQ.apply_eq g.fc4 (reluT a2) hw4
  have hbatch : what.batch = wher.batch := by
    rw [hwb, hhb]
    show a1.batch = a2.batch
    rw [ha1b, ha2b, hgb, hlB]
  have hwidth : what.width = wher.width := by
    rw [hww, hhw]
    rfl
  obtain ⟨s, hadd, hsb, hsw⟩ := addT_eq what wher hbatch hwidth
  refine ⟨glimpse, a1, a2, what, wher, s, hfov, ha1, hwhat, ha2, hwher,
    hww, hhw, hadd, ?_, ?_, ?_⟩
  · simp [GlimpseNet.forward, hfov, ha1, hwhat, ha2, hwher, hadd]
  · show s.batch = x.batch
    rw [hsb, hwb]
    show a1.batch = x.batch
    rw [ha1b, hgb]
  · show s.width = _
    rw [hsw, hww]
    rfl

/-! ### Claims C5 and C8: the location policy -/

lemma tanh_bounds (v : ℝ) : -1 ≤ Real.tanh v ∧ Real.tanh v ≤ 1 := by
  have hc : 0 < Real.cosh v := Real.cosh_pos v
  have h1 : Real.sinh v < Real.cosh v := Real.sinh_lt_cosh v
  have h2 : -Real.cosh v < Real.sinh v := by
    have := Real.sinh_lt_cosh (-v)
    rw [Real.sinh_neg, Real.cosh_neg] at this
    linarith
  rw [Real.tanh_eq_sinh_div_cosh]
  constructor
  · rw [le_div_iff₀ hc]
    linarith
  · rw [div_le_iff₀ hc]
    linarith

/-- Claim C5: for every hidden state of matching width and every drawn
standard-normal sample z, `LocationNet.forward` returns
mu = tanh(fc(hidden)) and l_t = tanh(mu + std * z), both of shape
(batch, output_size), and every coordinate of both outputs lies in
[-1, 1]. -/
theorem claim_C5 (n : LocationNet) (h_t : Tensor2R) (z : ℕ → ℕ → ℝ)
    (hw : h_t.width = n.input_size) :
    ∃ mu l_t, n.forward h_t z = some (mu, l_t) ∧
      mu = tanhT (n.fc.affine h_t) ∧
      l_t = tanhT ⟨mu.batch, mu.width, fun b j => mu.data b j + n.std * z b j⟩ ∧
      mu.batch = h_t.batch ∧ mu.width = n.output_size ∧
      l_t.batch = h_t.batch ∧ l_t.width = n.output_size ∧
      (∀ b j, -1 ≤ mu.data b j ∧ mu.data b j ≤ 1) ∧
      (∀ b j, -1 ≤ l_t.data b j ∧ l_t.data b j ≤ 1) := by
  have happ : n.fc.apply h_t = some (n.fc.affine h_t) := by
    rw [LinearR.apply, if_pos (show h_t.width = n.fc.inF from hw)]
  refine ⟨tanhT (n.fc.affine h_t), _, ?_, rfl, rfl, rfl, rfl, rfl, rfl, ?_, ?_⟩
  · rw [LocationNet.forward, happ]
  · intro b j
    exact tanh_bounds _
  · intro b j
    exact tanh_bounds _

/-- A concrete location network: input size 1, output size 2, std 1, zero
weights. -/
def locNet0 : LocationNet := ⟨1, 2, 1, fun _ _ => 0, fun _ => 0⟩

/-- A concrete width-1 zero hidden state over ℝ. -/
def hid0 : Tensor2R := ⟨1, 1, fun _ _ => 0⟩

/-- A concrete all-zero standard-normal draw. -/
def z0 : ℕ → ℕ → ℝ := fun _ _ => 0

/-- Claim C5 witness: the statement holds at a concrete location network with
std 1, zero weights, and a width-1 zero hidden state. -/
theorem claim_C5_witness :
    hid0.width = locNet0.input_size ∧
    ∃ mu l_t, locNet0.forward hid0 z0 = some (mu, l_t) ∧
      mu = tanhT (locNet0.fc.affine hid0) ∧
      l_t = tanhT ⟨mu.batch, mu.width, fun b j => mu.data b j + locNet0.std * z0 b j⟩ ∧
      mu.batch = hid0.batch ∧ mu.width = locNet0.output_size ∧
      l_t.batch = hid0.batch ∧ l_t.width = locNet0.output_size ∧
      (∀ b j, -1 ≤ mu.data b j ∧ mu.data b j ≤ 1) ∧
      (∀ b j, -1 ≤ l_t.data b j ∧ l_t.data b j ≤ 1) :=
  ⟨rfl, claim_C5 locNet0 hid0 z0 rfl⟩

/-- Claim C8: with std = 0 the location network is deterministic — two calls
on the same hidden state with different noise draws return identical
(mu, l_t) pairs. -/
theorem claim_C8 (isz osz : ℕ) (w : ℕ → ℕ → ℝ) (bs : ℕ → ℝ) (h_t : Tensor2R)
    (z z2 : ℕ → ℕ → ℝ) :
    (LocationNet.mk isz osz 0 w bs).forward h_t z =
      (LocationNet.mk isz osz 0 w bs).forward h_t z2 := by
  rw [LocationNet.forward, LocationNet.forward]
  cases happ : (LocationNet.mk isz osz 0 w bs).fc.apply h_t with
  | none => rfl
  | some a =>
    show some (_, _) = some (_, _)
    have : ∀ z3 : ℕ → ℕ → ℝ,
        tanhT ⟨(tanhT a).batch, (tanhT a).width, fun b j =>
          (tanhT a).data b j + (LocationNet.mk isz osz 0 w bs).std * z3 b j⟩ =
        tanhT ⟨(tanhT a).batch, (tanhT a).width, fun b j => (tanhT a).data b j⟩ := by
      intro z3
      show tanhT _ = tanhT _
      congr 1
      refine congrArg _ ?_
      funext b j
      show (tanhT a).data b j + 0 * z3 b j = (tanhT a).data b j
      ring
    rw [this z, this z2]

/-! ### Claim C6: initial state -/

/-- Claim C6: `core_network.init_state(N)` returns a hidden state of shape
(N, hidden_size) whose entries are all zero, and a location tensor of shape
(N, 2) whose entries all lie in [-1, 1], given that the `uniform_(-1, 1)`
draw produces values in [-1, 1). -/
theorem claim_C6 (c : CoreNetwork) (N : ℕ) (u : ℕ → ℕ → ℚ)
    (hu : ∀ i j, -1 ≤ u i j ∧ u i j < 1) :
    (c.init_state N u).1.batch = N ∧
    (c.init_state N u).1.width = c.hidden_size ∧
    (∀ b j, (c.init_state N u).1.data b j = 0) ∧
    (c.init_state N u).2.batch = N ∧
    (c.init_state N u).2.width = 2 ∧
    (∀ b j, -1 ≤ (c.init_state N u).2.data b j ∧ (c.init_state N u).2.data b j ≤ 1) := by
  refine ⟨rfl, rfl, fun b j => rfl, rfl, rfl, fun b j => ?_⟩
  obtain ⟨h1, h2⟩ := hu b j
  exact ⟨h1, le_of_lt h2⟩

/-- A concrete core network: input size 4, hidden size 3, zero weights. -/
def core0 : CoreNetwork := ⟨4, 3, fun _ _ => 0, fun _ => 0, fun _ _ => 0, fun _ => 0⟩

/-- A concrete all-zero uniform draw over ℚ. -/
def u0 : ℕ → ℕ → ℚ := fun _ _ => 0

/-- Claim C6 witness: the statement holds for a concrete core network of
hidden size 3, batch size 2, and the all-zero uniform draw. -/
theorem claim_C6_witness :
    (∀ i j, -1 ≤ u0 i j ∧ u0 i j < 1) ∧
    (core0.init_state 2 u0).1.batch = 2 ∧
    (core0.init_state 2 u0).1.width = core0.hidden_size ∧
    (∀ b j, (core0.init_state 2 u0).1.data b j = 0) ∧
    (core0.init_state 2 u0).2.batch = 2 ∧
    (core0.init_state 2 u0).2.width = 2 ∧
    (∀ b j, -1 ≤ (core0.init_state 2 u0).2.data b j ∧
      (core0.init_state 2 u0).2.data b j ≤ 1) := by
  have hu : ∀ i j, -1 ≤ u0 i j ∧ u0 i j < 1 :=
    fun i j => ⟨(by decide : (-1 : ℚ) ≤ 0), (by decide : (0 : ℚ) < 1)⟩
  exact ⟨hu, claim_C6 core0 2 u0 hu⟩

/-- A concrete glimpse network: hidden_g = hidden_l = 1, patch size 2, two
patches, scale factor 2, one channel, zero weights. -/
def gnet0 : GlimpseNet := ⟨1, 1, 2, 2, 2, 1,
  fun _ _ => 0, fun _ => 0, fun _ _ => 0, fun _ => 0,
  fun _ _ => 0, fun _ => 0, fun _ _ => 0, fun _ => 0⟩

/-- Claim C7 witness: the statement holds at the concrete glimpse network on
the 4×4 image and the centre location. -/
theorem claim_C7_witness :
    (gnet0.scale = ((2 : ℕ) : ℚ) ∧ 0 < (2 : ℕ) ∧ 0 < gnet0.patch_size ∧
      gnet0.patch_size % 2 = 0 ∧ 0 < gnet0.num_patches ∧
      img4.chans = gnet0.num_channel ∧ img4.height = img4.width ∧
      0 < img4.batch ∧ loc0.width = 2 ∧ loc0.batch = img4.batch ∧
      (∀ b, b < img4.batch → -1 ≤ loc0.data b 0 ∧ loc0.data b 0 ≤ 1 ∧
        -1 ≤ loc0.data b 1 ∧ loc0.data b 1 ≤ 1)) ∧
    ∃ glimpse a1 a2 what wher s,
      gnet0.retina.foveate img4 loc0 = some glimpse ∧
      gnet0.fc1.apply glimpse = some a1 ∧
      gnet0.fc3.apply (reluT a1) = some what ∧
      gnet0.fc2.apply loc0 = some a2 ∧
      gnet0.fc4.apply (reluT a2) = some wher ∧
      what.width = gnet0.hidden_g + gnet0.hidden_l ∧
      wher.width = gnet0.hidden_g + gnet0.hidden_l ∧
      addT what wher = some s ∧
      gnet0.forward img4 loc0 = some (reluT s) ∧
      (reluT s).batch = img4.batch ∧
      (reluT s).width = gnet0.hidden_g + gnet0.hidden_l := by
  have hl : ∀ b, b < img4.batch → -1 ≤ loc0.data b 0 ∧ loc0.data b 0 ≤ 1 ∧
      -1 ≤ loc0.data b 1 ∧ loc0.data b 1 ≤ 1 := by
    intro b _
    exact ⟨(by decide : (-1 : ℚ) ≤ 0), (by decide : (0 : ℚ) ≤ 1),
      (by decide : (-1 : ℚ) ≤ 0), (by decide : (0 : ℚ) ≤ 1)⟩
  have hsc : gnet0.scale = ((2 : ℕ) : ℚ) := by decide
  exact ⟨⟨hsc, by decide, by decide, by decide, by decide, rfl, rfl, by decide,
      rfl, rfl, hl⟩,
    claim_C7 gnet0 img4 loc0 2 hsc (by decide) (by decide) (by decide) (by decide)
      rfl rfl (by decide) rfl rfl hl⟩

/-! ### Claim C9 -/

lemma bcastDim_isSome (m n : ℕ) :
    (bcastDim m n).isSome ↔ (m = n ∨ m = 1 ∨ n = 1) := by
  rw [bcastDim]
  split_ifs <;> simp_all

lemma addT_isSome (x y : Tensor2Q) :
    (addT x y).isSome ↔
      (bcastDim x.batch y.batch).isSome ∧ (bcastDim x.width y.width).isSome := by
  rw [addT]
  cases hB : bcastDim x.batch y.batch <;> cases hW : bcastDim x.width y.width <;>
    simp [hB, hW]

/-- A concrete core network with input size 1, hidden size 1, zero weights. -/
def core1 : CoreNetwork := ⟨1, 1, fun _ _ => 0, fun _ => 0, fun _ _ => 0, fun _ => 0⟩

/-- Claim C9 counterexample: a glimpse input of batch 1 and a hidden state of
batch 2 do NOT make `core_network.forward` fail — the elementwise addition
silently broadcasts batch 1 against batch 2, producing a batch-2 result. -/
theorem claim_C9_counterexample :
    (Tensor2Q.mk 1 1 (fun _ _ => 0)).batch ≠ (Tensor2Q.mk 2 1 (fun _ _ => 0)).batch ∧
    (core1.forward (Tensor2Q.mk 1 1 (fun _ _ => 0)) (Tensor2Q.mk 2 1 (fun _ _ => 0))).map
      (fun t => (t.batch, t.width)) = some (2, 1) := by
  exact ⟨by decide, by decide⟩

/-- Claim C9 (amended): `core_network.forward` succeeds exactly when the
glimpse width matches `input_size`, the hidden width matches `hidden_size`,
and the two batch sizes either agree or one of them is 1.  Width mismatches
and batch mismatches with both sizes greater than 1 fail immediately (via
the underlying matrix-multiplication and elementwise-addition errors), but a
batch of 1 against a batch of N broadcasts silently instead of failing. -/
theorem claim_C9_amended (c : CoreNetwork) (g h : Tensor2Q) :
    (c.forward g h).isSome ↔
      g.width = c.input_size ∧ h.width = c.hidden_size ∧
        (g.batch = h.batch ∨ g.batch = 1 ∨ h.batch = 1) := by
  rw [CoreNetwork.forward]
  by_cases h1 : g.width = c.input_size
  · obtain ⟨A, hA, hAb, hAw⟩ := LinearQ.apply_eq c.i2h g h1
    rw [hA]
    by_cases h2 : h.width = c.hidden_size
    · obtain ⟨B, hB2, hBb, hBw⟩ := LinearQ.apply_eq c.h2h h h2
      rw [hB2]
      show ((addT A B).bind fun s => some (reluT s)).isSome ↔ _
      have hfin : ((addT A B).bind fun s => some (reluT s)).isSome = (addT A B).isSome := by
        cases addT A B <;> rfl
      rw [hfin, addT_isSome]
      rw [bcastDim_isSome, bcastDim_isSome, hAb, hBb, hAw, hBw]
      have hW : c.i2h.outF = c.h2h.outF := rfl
      simp [h1, h2, hW]
    · have hnone : c.h2h.apply h = none := by
        rw [LinearQ.apply, if_neg (show ¬ h.width = c.h2h.inF from h2)]
      rw [hnone]
      simp [h2]
  · have hnone : c.i2h.apply g = none := by
      rw [LinearQ.apply, if_neg (show ¬ g.width = c.i2h.inF from h1)]
    rw [hnone]
    simp [h1]

/-! ### Claim C10: per-row independence of foveation -/

/-- Two rank-4 tensors of identical shape whose data agree on batch row `i`
(all other rows may differ arbitrarily). -/
def RowAgree4 (i : ℕ) (x y : Tensor4Q) : Prop :=
  x.batch = y.batch ∧ x.chans = y.chans ∧ x.height = y.height ∧ x.width = y.width ∧
  ∀ c a b, x.data i c a b = y.data i c a b

/-- Two rank-2 tensors of identical shape whose data agree on batch row `i`. -/
def RowAgree2 (i : ℕ) (x y : Tensor2Q) : Prop :=
  x.batch = y.batch ∧ x.width = y.width ∧ ∀ j, x.data i j = y.data i j

lemma constantPad2d_rowAgree {i : ℕ} {x y : Tensor4Q} (p : ℕ) (v : ℚ)
    (h : RowAgree4 i x y) :
    RowAgree4 i (constantPad2d p v x) (constantPad2d p v y) := by
  obtain ⟨hb, hc, hh, hw, hd⟩ := h
  refine ⟨by simp [constantPad2d, hb], by simp [constantPad2d, hc],
    by simp [constantPad2d, hh], by simp [constantPad2d, hw], ?_⟩
  intro c a b
  show (if p ≤ a ∧ a < p + x.height ∧ p ≤ b ∧ b < p + x.width then
      x.data i c (a - p) (b - p) else v) =
    (if p ≤ a ∧ a < p + y.height ∧ p ≤ b ∧ b < p + y.width then
      y.data i c (a - p) (b - p) else v)
  rw [hh, hw]
  split_ifs with hcon
  · exact hd c (a - p) (b - p)
  · rfl

lemma extract_patch_rowAgree {i : ℕ} {x y : Tensor4Q} {l m : Tensor2Q} {size : ℕ}
    {t u : Tensor4Q}
    (hxy : RowAgree4 i x y) (hlm : RowAgree2 i l m) (hi : i < x.batch)
    (hx : extract_patch x l size = some t) (hy : extract_patch y m size = some u) :
    RowAgree4 i t u := by
  obtain ⟨hb, hc, hh, hw, hd⟩ := hxy
  obtain ⟨hlb2, hlw2, hld⟩ := hlm
  have hloc : ∀ j, locAt l i j = locAt m i j := by
    intro j
    rw [locAt, locAt, hlw2]
    exact hld _
  have hpadh : (constantPad2d (size / 2) 0 x).height =
      (constantPad2d (size / 2) 0 y).height := by
    simp [constantPad2d, hh]
  have hpadw : (constantPad2d (size / 2) 0 x).width =
      (constantPad2d (size / 2) 0 y).width := by
    simp [constantPad2d, hw]
  have hfyi : pixCoord x.width (locAt l i 1) = pixCoord y.width (locAt m i 1) := by
    rw [hw, hloc]
  have hfxi : pixCoord x.height (locAt l i 0) = pixCoord y.height (locAt m i 0) := by
    rw [hh, hloc]
  have hpad := constantPad2d_rowAgree (size / 2) (0 : ℚ) ⟨hb, hc, hh, hw, hd⟩
  rw [extract_patch] at hx hy
  split_ifs at hx with hB0 hLW hLB hall
  split_ifs at hy with hB0y hLWy hLBy hally
  obtain rfl := Option.some.inj hx
  obtain rfl := Option.some.inj hy
  have hi2 : i < y.batch := hb ▸ hi
  have hHx := (hall i hi).1
  have hWx := (hall i hi).2
  have hHy := (hally i hi2).1
  have hWy := (hally i hi2).2
  simp only [] at hHx hWx hHy hWy
  have hHxy : pyIdx (constantPad2d (size / 2) 0 x).height
        (pixCoord x.width (locAt l i 1) + ↑size) -
      pyIdx (constantPad2d (size / 2) 0 x).height (pixCoord x.width (locAt l i 1)) =
      pyIdx (constantPad2d (size / 2) 0 y).height
        (pixCoord y.width (locAt m i 1) + ↑size) -
      pyIdx (constantPad2d (size / 2) 0 y).height (pixCoord y.width (locAt m i 1)) := by
    rw [hpadh, hfyi]
  have hWxy : pyIdx (constantPad2d (size / 2) 0 x).width
        (pixCoord x.height (locAt l i 0) + ↑size) -
      pyIdx (constantPad2d (size / 2) 0 x).width (pixCoord x.height (locAt l i 0)) =
      pyIdx (constantPad2d (size / 2) 0 y).width
        (pixCoord y.height (locAt m i 0) + ↑size) -
      pyIdx (constantPad2d (size / 2) 0 y).width (pixCoord y.height (locAt m i 0)) := by
    rw [hpadw, hfxi]
  refine ⟨hb, hc, ?_, ?_, ?_⟩
  · show pyIdx _ _ - pyIdx _ _ = pyIdx _ _ - pyIdx _ _
    rw [← hHx, ← hHy, hHxy]
  · show pyIdx _ _ - pyIdx _ _ = pyIdx _ _ - pyIdx _ _
    rw [← hWx, ← hWy, hWxy]
  · intro c a b
    show (constantPad2d (size / 2) 0 x).data i c
        (pyIdx (constantPad2d (size / 2) 0 x).height (pixCoord x.width (locAt l i 1)) + a)
        (pyIdx (constantPad2d (size / 2) 0 x).width (pixCoord x.height (locAt l i 0)) + b) =
      (constantPad2d (size / 2) 0 y).data i c
        (pyIdx (constantPad2d (size / 2) 0 y).height (pixCoord y.width (locAt m i 1)) + a)
        (pyIdx (constantPad2d (size / 2) 0 y).width (pixCoord y.height (locAt m i 0)) + b)
    rw [hfyi, hfxi, hpadh, hpadw]
    exact hpad.2.2.2.2 _ _ _

lemma avg_pool2d_rowAgree {i : ℕ} {t u t2 u2 : Tensor4Q} {k : ℕ}
    (h : RowAgree4 i t u) (ht : avg_pool2d t k = some t2)
    (hu : avg_pool2d u k = some u2) : RowAgree4 i t2 u2 := by
  obtain ⟨hb, hc, hh, hw, hd⟩ := h
  rw [avg_pool2d] at ht hu
  split_ifs at ht with h1
  split_ifs at hu with h2
  obtain rfl := Option.some.inj ht
  obtain rfl := Option.some.inj hu
  refine ⟨hb, hc, by rw [hh], by rw [hw], ?_⟩
  intro c a b
  show (∑ di ∈ Finset.range k, ∑ dj ∈ Finset.range k,
      t.data i c (a * k + di) (b * k + dj)) / ((k : ℚ) * k) = _
  congr 1
  exact Finset.sum_congr rfl fun di _ => Finset.sum_congr rfl fun dj _ => hd _ _ _

lemma poolAll_rowAgree {i : ℕ} (p : ℕ) {L M : List Tensor4Q}
    (hLM : List.Forall₂ (RowAgree4 i) L M) :
    ∀ {L2 M2 : List Tensor4Q}, poolAll p L = some L2 → poolAll p M = some M2 →
      List.Forall₂ (RowAgree4 i) L2 M2 := by
  induction hLM with
  | nil =>
    intro L2 M2 h1 h2
    obtain rfl := Option.some.inj h1
    obtain rfl := Option.some.inj h2
    exact List.Forall₂.nil
  | @cons a b l1 l2 hab htail ih =>
    intro L2 M2 h1 h2
    rw [poolAll] at h1 h2
    cases hpa : avg_pool2d a (a.width / p) with
    | none => rw [hpa] at h1; exact absurd h1 (by simp)
    | some a2 =>
      cases hra : poolAll p l1 with
      | none => rw [hpa, hra] at h1; exact absurd h1 (by simp)
      | some L2a =>
        cases hpb : avg_pool2d b (b.width / p) with
        | none => rw [hpb] at h2; exact absurd h2 (by simp)
        | some b2 =>
          cases hrb : poolAll p l2 with
          | none => rw [hpb, hrb] at h2; exact absurd h2 (by simp)
          | some M2b =>
            rw [hpa, hra] at h1
            rw [hpb, hrb] at h2
            obtain rfl := Option.some.inj h1
            obtain rfl := Option.some.inj h2
            have hk : a.width / p = b.width / p := by rw [hab.2.2.2.1]
            exact List.Forall₂.cons
              (avg_pool2d_rowAgree hab hpa (hk ▸ hpb)) (ih hra hrb)

lemma extractFrom_rowAgree {i : ℕ} {x y : Tensor4Q} {l m : Tensor2Q} (r : Retina)
    (hxy : RowAgree4 i x y) (hlm : RowAgree2 i l m) (hi : i < x.batch) :
    ∀ (n i0 : ℕ) {L M : List Tensor4Q},
      extractFrom r x l i0 n = some L → extractFrom r y m i0 n = some M →
      List.Forall₂ (RowAgree4 i) L M := by
  intro n
  induction n with
  | zero =>
    intro i0 L M h1 h2
    obtain rfl := Option.some.inj h1
    obtain rfl := Option.some.inj h2
    exact List.Forall₂.nil
  | succ n ih =>
    intro i0 L M h1 h2
    rw [extractFrom] at h1 h2
    cases hpx : extract_patch x l (r.sizeAt i0) with
    | none => rw [hpx] at h1; exact absurd h1 (by simp)
    | some t =>
      cases hrx : extractFrom r x l (i0 + 1) n with
      | none => rw [hpx, hrx] at h1; exact absurd h1 (by simp)
      | some Ls =>
        cases hpy : extract_patch y m (r.sizeAt i0) with
        | none => rw [hpy] at h2; exact absurd h2 (by simp)
        | some u =>
          cases hry : extractFrom r y m (i0 + 1) n with
          | none => rw [hpy, hry] at h2; exact absurd h2 (by simp)
          | some Ms =>
            rw [hpx, hrx] at h1
            rw [hpy, hry] at h2
            obtain rfl := Option.some.inj h1
            obtain rfl := Option.some.inj h2
            exact List.Forall₂.cons
              (extract_patch_rowAgree hxy hlm hi hpx hpy) (ih (i0 + 1) hrx hry)

lemma catChannel2_rowAgree {i : ℕ} {a b c d e f : Tensor4Q}
    (h1 : RowAgree4 i a b) (h2 : RowAgree4 i c d)
    (h3 : catChannel2 a c = some e) (h4 : catChannel2 b d = some f) :
    RowAgree4 i e f := by
  rw [catChannel2] at h3 h4
  split_ifs at h3 with hc1
  split_ifs at h4 with hc2
  obtain rfl := Option.some.inj h3
  obtain rfl := Option.some.inj h4
  refine ⟨h1.1, by rw [h1.2.1, h2.2.1], h1.2.2.1, h1.2.2.2.1, ?_⟩
  intro ch p q
  show (if ch < a.chans then a.data i ch p q else c.data i (ch - a.chans) p q) =
    (if ch < b.chans then b.data i ch p q else d.data i (ch - b.chans) p q)
  rw [← h1.2.1]
  split_ifs with hlt
  · exact h1.2.2.2.2 ch p q
  · exact h2.2.2.2.2 _ p q

lemma catChannel_rowAgree {i : ℕ} {L M : List Tensor4Q}
    (hLM : List.Forall₂ (RowAgree4 i) L M) :
    ∀ {c d : Tensor4Q}, catChannel L = some c → catChannel M = some d →
      RowAgree4 i c d := by
  induction hLM with
  | nil =>
    intro c d h1 _
    exact absurd h1 (by simp [catChannel])
  | @cons a b l1 l2 hab htail ih =>
    intro c d h1 h2
    cases htail with
    | nil =>
      obtain rfl := Option.some.inj h1
      obtain rfl := Option.some.inj h2
      exact hab
    | @cons a2 b2 l12 l22 hab2 htail2 =>
      rw [catChannel] at h1 h2
      cases hca : catChannel (a2 :: l12) with
      | none => rw [hca] at h1; exact absurd h1 (by simp)
      | some ca =>
        cases hcb : catChannel (b2 :: l22) with
        | none => rw [hcb] at h2; exact absurd h2 (by simp)
        | some cb =>
          rw [hca] at h1
          rw [hcb] at h2
          exact catChannel2_rowAgree hab
            (ih hca hcb) h1 h2

lemma flattenT_rowAgree {i : ℕ} {c d : Tensor4Q} (h : RowAgree4 i c d) :
    RowAgree2 i (flattenT c) (flattenT d) := by
  obtain ⟨hb, hc, hh, hw, hd⟩ := h
  refine ⟨hb, by
    show c.chans * c.height * c.width = d.chans * d.height * d.width
    rw [hc, hh, hw], ?_⟩
  intro j
  show c.data i (j / (c.height * c.width)) (j % (c.height * c.width) / c.width) (j % c.width) = _
  rw [hh, hw]
  exact hd _ _ _

lemma foveateResized_rowAgree {i : ℕ} {x y : Tensor4Q} {l m : Tensor2Q} (r : Retina)
    (hxy : RowAgree4 i x y) (hlm : RowAgree2 i l m) (hi : i < x.batch)
    {L M : List Tensor4Q}
    (h1 : r.foveateResized x l = some L) (h2 : r.foveateResized y m = some M) :
    List.Forall₂ (RowAgree4 i) L M := by
  rw [Retina.foveateResized] at h1 h2
  cases hex : extractFrom r x l 0 r.num_patches with
  | none => rw [hex] at h1; exact absurd h1 (by simp)
  | some L0 =>
    cases hey : extractFrom r y m 0 r.num_patches with
    | none => rw [hey] at h2; exact absurd h2 (by simp)
    | some M0 =>
      rw [hex] at h1
      rw [hey] at h2
      have hfa := extractFrom_rowAgree r hxy hlm hi r.num_patches 0 hex hey
      cases hfa with
      | nil =>
        obtain rfl := Option.some.inj h1
        obtain rfl := Option.some.inj h2
        exact List.Forall₂.nil
      | @cons t u ts us hab htail =>
        show List.Forall₂ (RowAgree4 i) L M
        have h1b : (poolAll r.patch_size ts).bind (fun ts2 => some (t :: ts2)) = some L := h1
        have h2b : (poolAll r.patch_size us).bind (fun us2 => some (u :: us2)) = some M := h2
        cases hpt : poolAll r.patch_size ts with
        | none => rw [hpt] at h1b; exact absurd h1b (by simp)
        | some ts2 =>
          cases hpu : poolAll r.patch_size us with
          | none => rw [hpu] at h2b; exact absurd h2b (by simp)
          | some us2 =>
            rw [hpt] at h1b
            rw [hpu] at h2b
            obtain rfl := Option.some.inj h1b
            obtain rfl := Option.some.inj h2b
            exact List.Forall₂.cons hab (poolAll_rowAgree r.patch_size htail hpt hpu)

/-- Claim C10: row `i` of the output of `retina.foveate` depends only on row
`i` of the image batch and row `i` of the location batch: whenever the other
rows of the inputs are replaced arbitrarily (keeping shapes) and both calls
succeed, the output width and all entries of output row `i` are unchanged. -/
theorem claim_C10 (r : Retina) (x y : Tensor4Q) (l m : Tensor2Q) (i : ℕ)
    (hxy : RowAgree4 i x y) (hlm : RowAgree2 i l m) (hi : i < x.batch)
    (hx : (r.foveate x l).isSome) (hy : (r.foveate y m).isSome) :
    ((r.foveate x l).map fun t => t.width) = ((r.foveate y m).map fun t => t.width) ∧
    ∀ j, ((r.foveate x l).map fun t => t.data i j) =
      ((r.foveate y m).map fun t => t.data i j) := by
  cases hres : r.foveateResized x l with
  | none =>
    rw [Retina.foveate, hres] at hx
    exact absurd hx (by simp)
  | some L =>
    cases hresy : r.foveateResized y m with
    | none =>
      rw [Retina.foveate, hresy] at hy
      exact absurd hy (by simp)
    | some M =>
      cases hcat : catChannel L with
      | none =>
        have hxn : r.foveate x l = none := by
          rw [Retina.foveate, hres]
          show (catChannel L).bind (fun c2 => some (flattenT c2)) = none
          rw [hcat]
          rfl
        rw [hxn] at hx
        exact absurd hx (by simp)
      | some c =>
        cases hcaty : catChannel M with
        | none =>
          have hyn : r.foveate y m = none := by
            rw [Retina.foveate, hresy]
            show (catChannel M).bind (fun d2 => some (flattenT d2)) = none
            rw [hcaty]
            rfl
          rw [hyn] at hy
          exact absurd hy (by simp)
        | some d =>
          have hfx : r.foveate x l = some (flattenT c) := by
            rw [Retina.foveate, hres]
            show (catChannel L).bind (fun c2 => some (flattenT c2)) = _
            rw [hcat]
            rfl
          have hfy : r.foveate y m = some (flattenT d) := by
            rw [Retina.foveate, hresy]
            show (catChannel M).bind (fun d2 => some (flattenT d2)) = _
            rw [hcaty]
            rfl
          have hfa := foveateResized_rowAgree r hxy hlm hi hres hresy
          have hcd := catChannel_rowAgree hfa hcat hcaty
          have hfl := flattenT_rowAgree hcd
          rw [hfx, hfy]
          exact ⟨by simp [hfl.2.1], fun j => by simp [hfl.2.2 j]⟩

/-- A two-element image batch: row 0 constant 1, row 1 varying. -/
def imgA : Tensor4Q := ⟨2, 1, 2, 2, fun b _ i j => if b = 0 then 1 else (i : ℚ) + j⟩

/-- A two-element image batch agreeing with `imgA` on row 0 only. -/
def imgB : Tensor4Q := ⟨2, 1, 2, 2, fun b _ _ _ => if b = 0 then 1 else 99⟩

/-- Two centre locations. -/
def locA : Tensor2Q := ⟨2, 2, fun _ _ => 0⟩

/-- A single-scale retina with patch size 2. -/
def retinaS : Retina := ⟨2, 1, 2⟩

/-- Claim C10 witness: at a concrete batch of two 2×2 images that agree on
row 0 and differ on row 1, both foveations succeed and row 0 of the output is
unchanged. -/
theorem claim_C10_witness :
    (RowAgree4 0 imgA imgB ∧ RowAgree2 0 locA locA ∧ 0 < imgA.batch ∧
      (retinaS.foveate imgA locA).isSome ∧ (retinaS.foveate imgB locA).isSome) ∧
    ((retinaS.foveate imgA locA).map fun t => t.width) =
      ((retinaS.foveate imgB locA).map fun t => t.width) ∧
    ∀ j, ((retinaS.foveate imgA locA).map fun t => t.data 0 j) =
      ((retinaS.foveate imgB locA).map fun t => t.data 0 j) := by
  have h1 : RowAgree4 0 imgA imgB := ⟨rfl, rfl, rfl, rfl, fun c a b => rfl⟩
  have h2 : RowAgree2 0 locA locA := ⟨rfl, rfl, fun j => rfl⟩
  have h3 : 0 < imgA.batch := by decide
  have h4 : (retinaS.foveate imgA locA).isSome := by decide
  have h5 : (retinaS.foveate imgB locA).isSome := by decide
  exact ⟨⟨h1, h2, h3, h4, h5⟩, claim_C10 retinaS imgA imgB locA locA 0 h1 h2 h3 h4 h5⟩

end RAM